import Mathlib

/-!
Verification of the WordSearch program (WordSearch.py).

The program builds a random rectangular grid of lowercase letters, loads a
dictionary file, extracts every scan line of the grid (rows, columns and the
top-row-anchored diagonals, each forwards and backwards) and reports the
dictionary words that occur as a contiguous substring of some scan line.

Modelling conventions.
Grids and words are lists of characters (a Python string is its character
sequence; Python substring membership is contiguous containment).  A Python
IndexError raised by an out-of-range nonnegative list index is modelled with
Option: an out-of-range lookup yields none and the failure propagates through
the enclosing computation.  Negative indices never arise in the translated
code, every index expression stays nonnegative.  The process-wide random
source used by random.choice is modelled as a function giving, for each grid
position, the index of the chosen letter in the 26-letter alphabet.  A
dictionary file is modelled by its character contents; iterating over an open
Python text file yields the lines with their terminator kept, which fileLines
reproduces.
-/

/-- The 26 lowercase ASCII letters, string.ascii_lowercase. -/
def ascii_lowercase : List Char :=
  ['a', 'b', 'c', 'd', 'e', 'f', 'g', 'h', 'i', 'j', 'k', 'l', 'm',
   'n', 'o', 'p', 'q', 'r', 's', 't', 'u', 'v', 'w', 'x', 'y', 'z']

/-- Embedding of WordSearch._generate_grid: a ysize-row, xsize-column grid,
each cell an independently chosen lowercase letter (random.choice over
ascii_lowercase, with the random source rand giving the chosen index). -/
def generate_grid (xsize ysize : Nat) (rand : Nat → Nat → Fin 26) : List (List Char) :=
  (List.range ysize).map (fun j =>
    (List.range xsize).map (fun i => ascii_lowercase.getD (rand j i).val 'a'))

/-- Helper for fileLines: acc holds the characters of the current line in
reverse.  Each produced line keeps its terminating newline, a final line
without terminator is kept as is, and empty input yields no lines, exactly
as iterating over an open Python text file does. -/
def fileLinesAux (acc : List Char) : List Char → List (List Char)
  | [] => if acc.isEmpty then [] else [acc.reverse]
  | c :: rest =>
    if c = '\n' then (acc.reverse ++ ['\n']) :: fileLinesAux [] rest
    else fileLinesAux (c :: acc) rest

/-- The lines of a file's contents, terminators kept (Python file iteration). -/
def fileLines (contents : List Char) : List (List Char) :=
  fileLinesAux [] contents

/-- Insert a word into a list already ordered by non-decreasing length,
before the first element of length not smaller: the stable ascending
insertion.  CPython's sorted(words, key=len) is the stable ascending sort by
length, and the stable sort by a key is unique, so sortByLen below computes
exactly what line 60 of the source returns. -/
def insertByLen (w : List Char) : List (List Char) → List (List Char)
  | [] => [w]
  | x :: xs => if w.length ≤ x.length then w :: x :: xs else x :: insertByLen w xs

/-- Stable insertion sort by word length, the model of sorted(words, key=len). -/
def sortByLen : List (List Char) → List (List Char)
  | [] => []
  | x :: xs => insertByLen x (sortByLen xs)

/-- Embedding of WordSearch._load_dictionary.  Each line of the file is cut
at its first newline (word.split('\x7bnewline\x7d')[0] keeps the prefix before the
first newline, i.e. takeWhile), an empty word list raises ValueError, and
the words come back sorted by length, shortest first. -/
def load_dictionary (contents : List Char) : Except String (List (List Char)) :=
  let words_dictionary := (fileLines contents).map (fun word => word.takeWhile (fun c => c ≠ '\n'))
  if words_dictionary.length = 0 then
    Except.error "No words in dictionary, need to specify a dictionary with at least 1 word."
  else
    Except.ok (sortByLen words_dictionary)

/-- Cell access letter_grid[r][c] for nonnegative indices: none models the
IndexError Python raises when an index is out of range. -/
def getCell (g : List (List Char)) (r c : Nat) : Option Char :=
  (g.get? r).bind (fun row => row.get? c)

/-- Sequence a list of optional values: the whole list if every entry is
present, none as soon as one lookup failed (the comprehension raises). -/
def seqOpt {α : Type} : List (Option α) → Option (List α)
  | [] => some []
  | o :: os => o.bind (fun a => Option.map (fun as => a :: as) (seqOpt os))

/-- Embedding of WordSearch._get_horizontal_str: for each row in order, the
row and then its reverse are appended to the output list.  Iterating over
the rows themselves cannot raise, so this extractor is total. -/
def get_horizontal_str (g : List (List Char)) : List (List Char) :=
  (g.map (fun char_list => [char_list, char_list.reverse])).flatten

/-- Column curr_x read top to bottom: [letter_grid[y][curr_x] for y in range(ysize)]. -/
def columnChars (g : List (List Char)) (ysize curr_x : Nat) : Option (List Char) :=
  seqOpt ((List.range ysize).map (fun y => getCell g y curr_x))

/-- Embedding of WordSearch._get_vertical_str: for each column index below
xsize in order, the column read top to bottom and then its reverse. -/
def get_vertical_str (g : List (List Char)) (xsize ysize : Nat) : Option (List (List Char)) :=
  Option.map List.flatten (seqOpt ((List.range xsize).map (fun curr_x =>
    Option.map (fun col => [col, col.reverse]) (columnChars g ysize curr_x))))

/-- The comprehension [letter_grid[inc][curr_x + inc] for inc in range(xsize - curr_x)]
of line 140: the downward-right diagonal anchored at row 0, column curr_x.
Only the column coordinate bounds the range, so the row index inc can run
past the last row, in which case the lookup fails. -/
def d_upper_right (g : List (List Char)) (xsize curr_x : Nat) : Option (List Char) :=
  seqOpt ((List.range (xsize - curr_x)).map (fun inc => getCell g inc (curr_x + inc)))

/-- The comprehension [letter_grid[inc][(xsize - 1 - curr_x) - inc] for inc in range(xsize - curr_x)]
of line 145: the downward-left diagonal anchored at row 0, column xsize - 1 - curr_x. -/
def d_upper_left (g : List (List Char)) (xsize curr_x : Nat) : Option (List Char) :=
  seqOpt ((List.range (xsize - curr_x)).map (fun inc => getCell g inc (xsize - 1 - curr_x - inc)))

/-- One iteration of the loop of _get_diagonal_str: the four strings appended
for starting column curr_x (right diagonal, its reverse, left diagonal, its
reverse), or failure if either comprehension raised. -/
def diagBlock (g : List (List Char)) (xsize curr_x : Nat) : Option (List (List Char)) :=
  match d_upper_right g xsize curr_x, d_upper_left g xsize curr_x with
  | some dr, some dl => some [dr, dr.reverse, dl, dl.reverse]
  | _, _ => none

/-- Embedding of WordSearch._get_diagonal_str: the blocks of four diagonal
strings for each starting column below xsize, concatenated in order. -/
def get_diagonal_str (g : List (List Char)) (xsize : Nat) : Option (List (List Char)) :=
  Option.map List.flatten (seqOpt ((List.range xsize).map (fun curr_x => diagBlock g xsize curr_x)))

/-- The fields of a WordSearch object after construction. -/
structure WordSearchState where
  xsize : Nat
  ysize : Nat
  words_dictionary : List (List Char)
  letter_grid : List (List Char)
  found_words : Finset (List Char)

/-- Embedding of WordSearch.__init__: the dictionary is loaded first and a
load failure propagates at once, so the grid of the failed construction is
never generated; on success the object carries the sorted dictionary, a
fresh random grid and an empty found-word set. -/
def WordSearch_init (contents : List Char) (xsize ysize : Nat)
    (rand : Nat → Nat → Fin 26) : Except String WordSearchState :=
  match load_dictionary contents with
  | Except.error e => Except.error e
  | Except.ok d => Except.ok ⟨xsize, ysize, d, generate_grid xsize ysize rand, ∅⟩

/-- Python substring membership w in s: some contiguous run of s equals w.
Directly w is empty, or w is a prefix of s, or w occurs in the tail of s. -/
def substrB (w : List Char) : List Char → Bool
  | [] => w.isEmpty
  | c :: rest => w.isPrefixOf (c :: rest) || substrB w rest

/-- The matching loop of find_words (lines 90-92): each dictionary word
contained in some comparison string is added to the found-word set. -/
def find_words_loop (dict comp : List (List Char)) (found : Finset (List Char)) :
    Finset (List Char) :=
  dict.foldl (fun acc word_to_cmp =>
    if comp.any (fun curr_string => substrB word_to_cmp curr_string) then
      insert word_to_cmp acc
    else acc) found

/-- The comparison strings built by find_words (lines 82-85): horizontal,
then vertical, then diagonal scan lines.  Failure of an extractor (an
IndexError) aborts find_words before the matching loop runs. -/
def comp_strings (st : WordSearchState) : Option (List (List Char)) :=
  match get_vertical_str st.letter_grid st.xsize st.ysize,
        get_diagonal_str st.letter_grid st.xsize with
  | some v, some d => some (get_horizontal_str st.letter_grid ++ v ++ d)
  | _, _ => none

/-- Embedding of WordSearch.find_words: build the comparison strings, add
every matched dictionary word to the object's found-word set, and return
that set (the object's found_words field becomes the returned set). -/
def find_words (st : WordSearchState) : Option (Finset (List Char)) :=
  Option.map (fun comp => find_words_loop st.words_dictionary comp st.found_words)
    (comp_strings st)

/-- Well-formed grid of h rows, each of w cells (what _generate_grid builds). -/
def WFGrid (g : List (List Char)) (w h : Nat) : Prop :=
  g.length = h ∧ ∀ row ∈ g, row.length = w

/-- Total cell access for stating properties of well-formed grids. -/
def cellD (g : List (List Char)) (r c : Nat) : Char :=
  (g.getD r []).getD c 'a'

/-- Row r of a width-w grid read left to right, by cell indexing. -/
def rowD (g : List (List Char)) (w r : Nat) : List Char :=
  (List.range w).map (fun c => cellD g r c)

/-- Column c of a height-h grid read top to bottom, by cell indexing. -/
def colD (g : List (List Char)) (h c : Nat) : List Char :=
  (List.range h).map (fun r => cellD g r c)

/-- The downward-right diagonal of a width-w grid anchored at row 0,
column c, with the run length w - c used by the extractor. -/
def diagRightD (g : List (List Char)) (w c : Nat) : List Char :=
  (List.range (w - c)).map (fun i => cellD g i (c + i))

/-- The downward-left diagonal of a width-w grid anchored at row 0,
column w - 1 - c, with the run length w - c used by the extractor. -/
def diagLeftD (g : List (List Char)) (w c : Nat) : List Char :=
  (List.range (w - c)).map (fun i => cellD g i (w - 1 - c - i))

/-- The word occurs in the grid along the downward-right diagonal starting
at row r, column c: cell (r + i, c + i) holds letter i of the word. -/
def occursDiagDownRight (g : List (List Char)) (word : List Char) (r c : Nat) : Prop :=
  (List.range word.length).map (fun i => getCell g (r + i) (c + i)) = word.map some

/-- Concrete one-cell search state instantiating C1. -/
def c1state : WordSearchState := ⟨1, 1, [['a']], [['a']], ∅⟩

/-- The scan lines of the one-cell grid of c1state. -/
def c1comp : List (List Char) :=
  [['a'], ['a'], ['a'], ['a'], ['a'], ['a'], ['a'], ['a']]

/-- The grid instantiating C4: the word xy occurs only on the diagonal that
starts on the left column one row below the top. -/
def c4grid : List (List Char) := [['a', 'b', 'c'], ['x', 'd', 'e'], ['f', 'y', 'g']]

/-- Sequencing a list of lookups that all succeed yields the list of results. -/
theorem seqOpt_map_eq_some {α β : Type} (l : List β) (f : β → Option α) (t : β → α)
    (h : ∀ x ∈ l, f x = some (t x)) : seqOpt (l.map f) = some (l.map t) := by
  induction l with
  | nil => rfl
  | cons x xs ih =>
    have hx := h x (List.mem_cons_self x xs)
    have hxs := ih (fun y hy => h y (List.mem_cons_of_mem x hy))
    simp [seqOpt, hx, hxs]

/-- Cell lookup on a well-formed grid succeeds at in-bounds coordinates and
returns the total access. -/
theorem getCell_eq_some {g : List (List Char)} {w h r c : Nat}
    (hwf : WFGrid g w h) (hr : r < h) (hc : c < w) :
    getCell g r c = some (cellD g r c) := by
  obtain ⟨hlen, hrow⟩ := hwf
  have hrlen : r < g.length := by rw [hlen]; exact hr
  have hmem : g[r] ∈ g := List.getElem_mem hrlen
  have hclen : c < g[r].length := by rw [hrow _ hmem]; exact hc
  simp [getCell, cellD, List.get?_eq_getElem?, List.getElem?_eq_getElem,
    hrlen, hclen, List.getD_eq_getElem]

/-- Boolean substring containment agrees with contiguous-infix containment. -/
theorem substrB_eq_true_iff (w s : List Char) : substrB w s = true ↔ w <:+: s := by
  induction s with
  | nil => simp [substrB, List.isEmpty_iff]
  | cons c rest ih =>
    simp [substrB, ih, List.infix_cons_iff, List.isPrefixOf_iff_prefix]

/-- Membership in the matching loop's result: the previously found words plus
every dictionary word contained in some comparison string. -/
theorem mem_find_words_loop (dict comp : List (List Char)) (found : Finset (List Char))
    (a : List Char) :
    a ∈ find_words_loop dict comp found ↔
      a ∈ found ∨ (a ∈ dict ∧ ∃ s ∈ comp, substrB a s = true) := by
  induction dict generalizing found with
  | nil => simp [find_words_loop]
  | cons x xs ih =>
    unfold find_words_loop
    simp only [List.foldl_cons]
    rw [show (List.foldl (fun acc word_to_cmp =>
        if comp.any (fun curr_string => substrB word_to_cmp curr_string) then
          insert word_to_cmp acc
        else acc) (if comp.any (fun curr_string => substrB x curr_string) then
          insert x found else found) xs) = find_words_loop xs comp
        (if comp.any (fun curr_string => substrB x curr_string) then
          insert x found else found) from rfl, ih]
    by_cases hx : comp.any (fun curr_string => substrB x curr_string) = true
    · simp only [hx, if_true, Finset.mem_insert, List.mem_cons]
      rcases List.any_eq_true.mp hx with ⟨s0, hs0, hsub0⟩
      constructor
      · rintro (⟨rfl | ha⟩ | ⟨hxs, hex⟩)
        · exact Or.inr ⟨Or.inl rfl, s0, hs0, hsub0⟩
        · exact Or.inl ha
        · exact Or.inr ⟨Or.inr hxs, hex⟩
      · rintro (ha | ⟨rfl | hxs, hex⟩)
        · exact Or.inl (Or.inr ha)
        · exact Or.inl (Or.inl rfl)
        · exact Or.inr ⟨hxs, hex⟩
    · simp only [hx, if_false, List.mem_cons]
      constructor
      · rintro (ha | ⟨hxs, hex⟩)
        · exact Or.inl ha
        · exact Or.inr ⟨Or.inr hxs, hex⟩
      · rintro (ha | ⟨rfl | hxs, hex⟩)
        · exact Or.inl ha
        · exact absurd (List.any_eq_true.mpr
            (by rcases hex with ⟨s0, hs0, hsub0⟩; exact ⟨s0, hs0, hsub0⟩)) hx
        · exact Or.inr ⟨hxs, hex⟩

/-- Reading every index of a list back in order reproduces the list. -/
theorem map_range_getD {α : Type} (d : α) (l : List α) :
    (List.range l.length).map (fun r => l.getD r d) = l := by
  induction l with
  | nil => rfl
  | cons a l ih =>
    rw [List.length_cons, List.range_succ_eq_map, List.map_cons, List.map_map]
    have hcomp : ((fun r => (a :: l).getD r d) ∘ Nat.succ) = fun r => l.getD r d := by
      funext r
      simp
    rw [List.getD_cons_zero, hcomp, ih]

/-- Length of a flattening whose blocks all have length k. -/
theorem length_flatten_const {α β : Type} (l : List α) (f : α → List β) (k : Nat)
    (hf : ∀ x ∈ l, (f x).length = k) : ((l.map f).flatten).length = k * l.length := by
  induction l with
  | nil => simp
  | cons x xs ih =>
    simp only [List.map_cons, List.flatten_cons, List.length_append, List.length_cons]
    rw [hf x (List.mem_cons_self x xs), ih (fun y hy => hf y (List.mem_cons_of_mem x hy))]
    ring

/-- On a well-formed grid, reading row r cell by cell gives the stored row. -/
theorem rowD_eq {g : List (List Char)} {w h : Nat} (hwf : WFGrid g w h)
    {r : Nat} (hr : r < h) : rowD g w r = g.getD r [] := by
  obtain ⟨hlen, hrow⟩ := hwf
  have hrlen : r < g.length := by rw [hlen]; exact hr
  have hmem : g[r] ∈ g := List.getElem_mem hrlen
  have hwlen : g[r].length = w := hrow _ hmem
  have hgd : g.getD r [] = g[r] := List.getD_eq_getElem _ _ hrlen
  unfold rowD cellD
  rw [hgd, ← hwlen, map_range_getD]

/-- Reading every index of a list back in order, under a block builder,
reproduces the mapped list. -/
theorem map_range_getD_comp {α β : Type} (d : α) (l : List α) (F : α → β) :
    (List.range l.length).map (fun r => F (l.getD r d)) = l.map F := by
  have h1 : (fun r => F (l.getD r d)) = F ∘ (fun r => l.getD r d) := rfl
  rw [h1, ← List.map_map, map_range_getD]

/-- The horizontal extractor emits, for each row index in order, the row read
left to right and then its reverse. -/
theorem get_horizontal_str_eq {g : List (List Char)} {w h : Nat} (hwf : WFGrid g w h) :
    get_horizontal_str g =
      ((List.range h).map (fun r => [rowD g w r, (rowD g w r).reverse])).flatten := by
  unfold get_horizontal_str
  congr 1
  have h1 : (List.range h).map (fun r => [rowD g w r, (rowD g w r).reverse])
      = (List.range h).map (fun r => [g.getD r [], (g.getD r []).reverse]) :=
    List.map_congr_left (fun r hr => by rw [rowD_eq hwf (List.mem_range.mp hr)])
  rw [h1]
  obtain ⟨hlen, _⟩ := hwf
  rw [← hlen]
  have h2 : (List.range g.length).map (fun r => [g.getD r [], (g.getD r []).reverse])
      = g.map (fun row => [row, row.reverse]) :=
    map_range_getD_comp [] g (fun row => [row, row.reverse])
  rw [h2]

/-- On a well-formed grid every column lookup succeeds and yields the column. -/
theorem columnChars_eq_some {g : List (List Char)} {w h : Nat} (hwf : WFGrid g w h)
    {x : Nat} (hx : x < w) : columnChars g h x = some (colD g h x) := by
  unfold columnChars colD
  exact seqOpt_map_eq_some _ _ _
    (fun y hy => getCell_eq_some hwf (List.mem_range.mp hy) hx)

/-- The vertical extractor on a well-formed grid succeeds and emits, for each
column index in order, the column top to bottom and then its reverse. -/
theorem get_vertical_str_eq {g : List (List Char)} {w h : Nat} (hwf : WFGrid g w h) :
    get_vertical_str g w h =
      some (((List.range w).map
        (fun c => [colD g h c, (colD g h c).reverse])).flatten) := by
  unfold get_vertical_str
  rw [seqOpt_map_eq_some (List.range w) _
    (fun x => [colD g h x, (colD g h x).reverse])
    (fun x hx => by rw [columnChars_eq_some hwf (List.mem_range.mp hx)]; rfl)]
  rfl

/-- The downward-right diagonal comprehension succeeds on a well-formed grid
that is at least as tall as it is wide. -/
theorem d_upper_right_eq_some {g : List (List Char)} {w h : Nat} (hwf : WFGrid g w h)
    (hwh : w ≤ h) {c : Nat} (hc : c < w) :
    d_upper_right g w c = some (diagRightD g w c) := by
  unfold d_upper_right diagRightD
  apply seqOpt_map_eq_some
  intro inc hinc
  have h1 : inc < w - c := List.mem_range.mp hinc
  exact getCell_eq_some hwf (by omega) (by omega)

/-- The downward-left diagonal comprehension succeeds on a well-formed grid
that is at least as tall as it is wide. -/
theorem d_upper_left_eq_some {g : List (List Char)} {w h : Nat} (hwf : WFGrid g w h)
    (hwh : w ≤ h) {c : Nat} (hc : c < w) :
    d_upper_left g w c = some (diagLeftD g w c) := by
  unfold d_upper_left diagLeftD
  apply seqOpt_map_eq_some
  intro inc hinc
  have h1 : inc < w - c := List.mem_range.mp hinc
  exact getCell_eq_some hwf (by omega) (by omega)

/-- One loop iteration of the diagonal extractor produces its four strings. -/
theorem diagBlock_eq_some {g : List (List Char)} {w h : Nat} (hwf : WFGrid g w h)
    (hwh : w ≤ h) {c : Nat} (hc : c < w) :
    diagBlock g w c = some [diagRightD g w c, (diagRightD g w c).reverse,
      diagLeftD g w c, (diagLeftD g w c).reverse] := by
  unfold diagBlock
  rw [d_upper_right_eq_some hwf hwh hc, d_upper_left_eq_some hwf hwh hc]

/-- The diagonal extractor on a well-formed grid at least as tall as wide
succeeds and emits, for each starting column in order, the four
top-row-anchored diagonal strings of that iteration. -/
theorem get_diagonal_str_eq {g : List (List Char)} {w h : Nat} (hwf : WFGrid g w h)
    (hwh : w ≤ h) :
    get_diagonal_str g w =
      some (((List.range w).map (fun c =>
        [diagRightD g w c, (diagRightD g w c).reverse,
         diagLeftD g w c, (diagLeftD g w c).reverse])).flatten) := by
  unfold get_diagonal_str
  rw [seqOpt_map_eq_some (List.range w) _
    (fun c => [diagRightD g w c, (diagRightD g w c).reverse,
      diagLeftD g w c, (diagLeftD g w c).reverse])
    (fun c hc => diagBlock_eq_some hwf hwh (List.mem_range.mp hc))]
  rfl

/-- C2, the code evaluated at the failing input: on the well-formed 1-row,
2-column grid the diagonal extractor indexes row 1, which does not exist, so
the extraction raises IndexError (returns none in the model) instead of
reading only in-bounds cells. -/
theorem get_diagonal_str_out_of_bounds :
    WFGrid [['a', 'b']] 2 1 ∧ get_diagonal_str [['a', 'b']] 2 = none :=
  ⟨⟨rfl, by decide⟩, rfl⟩

/-- C3 counterexample: on the well-formed 2-row, 3-column grid the diagonal
extractor produces no list of scan lines at all (the first iteration indexes
row 2, which does not exist), so it does not produce 4 times width = 12
diagonal strings as claimed for every grid. -/
theorem get_diagonal_str_fails_on_wide_grid :
    WFGrid [['a', 'b', 'c'], ['d', 'e', 'f']] 3 2 ∧
    get_diagonal_str [['a', 'b', 'c'], ['d', 'e', 'f']] 3 = none :=
  ⟨⟨rfl, by decide⟩, rfl⟩

/-- Sequencing fails as soon as one entry is a failed lookup. -/
theorem seqOpt_eq_none_of_mem {α : Type} {l : List (Option α)} (h : none ∈ l) :
    seqOpt l = none := by
  induction l with
  | nil => simp at h
  | cons o os ih =>
    rcases List.mem_cons.mp h with h0 | h2
    · rw [← h0]
      rfl
    · simp [seqOpt, ih h2]

/-- Cell lookup fails when the row index is past the last row. -/
theorem getCell_row_oob {g : List (List Char)} {r c : Nat} (h : g.length ≤ r) :
    getCell g r c = none := by
  unfold getCell
  rw [List.get?_eq_getElem?, List.getElem?_eq_none h]
  rfl

/-- On every well-formed grid that is wider than it is tall, the diagonal
extractor raises: already the first iteration's downward-right comprehension
reads row equal to the height, which does not exist. -/
theorem get_diagonal_str_none_of_wide {g : List (List Char)} {w h : Nat}
    (hwf : WFGrid g w h) (hhw : h < w) : get_diagonal_str g w = none := by
  have hdr : d_upper_right g w 0 = none := by
    unfold d_upper_right
    apply seqOpt_eq_none_of_mem
    refine List.mem_map.mpr ⟨h, List.mem_range.mpr (by omega), ?_⟩
    exact getCell_row_oob hwf.1.le
  have hblock : diagBlock g w 0 = none := by
    unfold diagBlock
    rw [hdr]
  have hmem : none ∈ (List.range w).map (fun curr_x => diagBlock g w curr_x) :=
    List.mem_map.mpr ⟨0, List.mem_range.mpr (by omega), hblock⟩
  unfold get_diagonal_str
  rw [seqOpt_eq_none_of_mem hmem]
  rfl

/-- C3 (amended): on every well-formed grid with width at most height (the
only grids on which the extractor completes), diagonal extraction produces,
for each starting column c from 0 to width - 1, the downward-right diagonal
starting at row 0 column c and the downward-left diagonal starting at row 0
column width - 1 - c, each with its reverse; the run at iteration c has
exactly width - c cells, and in total 4 times width diagonal scan lines come
back.  On every well-formed grid with width greater than height the
extraction raises IndexError and produces no scan lines at all. -/
theorem get_diagonal_str_spec (g : List (List Char)) (w h : Nat)
    (hwf : WFGrid g w h) :
    (w ≤ h →
      get_diagonal_str g w =
        some (((List.range w).map (fun c =>
          [diagRightD g w c, (diagRightD g w c).reverse,
           diagLeftD g w c, (diagLeftD g w c).reverse])).flatten) ∧
      (∀ c, c < w →
        (diagRightD g w c).length = w - c ∧ (diagLeftD g w c).length = w - c) ∧
      (∀ L, get_diagonal_str g w = some L → L.length = 4 * w)) ∧
    (h < w → get_diagonal_str g w = none) := by
  constructor
  · intro hwh
    refine ⟨get_diagonal_str_eq hwf hwh, ?_, ?_⟩
    · intro c hc
      constructor
      · simp [diagRightD]
      · simp [diagLeftD]
    · intro L hL
      rw [get_diagonal_str_eq hwf hwh] at hL
      have hL2 := Option.some.inj hL
      rw [← hL2, length_flatten_const (List.range w)
        (fun c => [diagRightD g w c, (diagRightD g w c).reverse,
          diagLeftD g w c, (diagLeftD g w c).reverse]) 4 (fun c hc => rfl)]
      simp
  · intro hhw
    exact get_diagonal_str_none_of_wide hwf hhw

/-- C5: horizontal extraction emits, for each row in order, the row read left
to right and then its reverse, 2 times height strings in total; vertical
extraction emits, for each column in order, the column read top to bottom and
then its reverse, 2 times width strings in total. -/
theorem horizontal_vertical_spec (g : List (List Char)) (w h : Nat) (hwf : WFGrid g w h) :
    get_horizontal_str g =
      ((List.range h).map (fun r => [rowD g w r, (rowD g w r).reverse])).flatten ∧
    (get_horizontal_str g).length = 2 * h ∧
    get_vertical_str g w h =
      some (((List.range w).map (fun c => [colD g h c, (colD g h c).reverse])).flatten) ∧
    (∀ V, get_vertical_str g w h = some V → V.length = 2 * w) := by
  refine ⟨get_horizontal_str_eq hwf, ?_, get_vertical_str_eq hwf, ?_⟩
  · rw [get_horizontal_str_eq hwf,
      length_flatten_const (List.range h)
        (fun r => [rowD g w r, (rowD g w r).reverse]) 2 (fun r hr => rfl)]
    simp
  · intro V hV
    rw [get_vertical_str_eq hwf] at hV
    have hV2 := Option.some.inj hV
    rw [← hV2, length_flatten_const (List.range w)
      (fun c => [colD g h c, (colD g h c).reverse]) 2 (fun c hc => rfl)]
    simp

/-- C1: whenever find_words returns a set on a freshly constructed object
(empty found-word set), a dictionary word belongs to the returned set exactly
when it is a contiguous, case-sensitive substring of at least one generated
scan line; the result being a set, a word matching several scan lines or
orientations contributes exactly one element. -/
theorem find_words_mem_iff (st : WordSearchState) (comp : List (List Char))
    (S : Finset (List Char)) (hfresh : st.found_words = ∅)
    (hcomp : comp_strings st = some comp) (hS : find_words st = some S)
    (w : List Char) :
    w ∈ S ↔ w ∈ st.words_dictionary ∧ ∃ line ∈ comp, w <:+: line := by
  unfold find_words at hS
  rw [hcomp] at hS
  simp only [Option.map_some'] at hS
  have hSS : find_words_loop st.words_dictionary comp st.found_words = S :=
    Option.some.inj hS
  rw [← hSS, mem_find_words_loop, hfresh]
  simp only [Finset.not_mem_empty, false_or]
  constructor
  · rintro ⟨hd, s, hs, hsub⟩
    exact ⟨hd, s, hs, (substrB_eq_true_iff w s).mp hsub⟩
  · rintro ⟨hd, s, hs, hsub⟩
    exact ⟨hd, s, hs, (substrB_eq_true_iff w s).mpr hsub⟩

/-- Witness for C1 at the one-cell grid with the one-word dictionary. -/
theorem find_words_mem_iff_witness :
    (['a'] ∈ ({['a']} : Finset (List Char))) ↔
      ['a'] ∈ c1state.words_dictionary ∧ ∃ line ∈ c1comp, ['a'] <:+: line :=
  find_words_mem_iff c1state c1comp {['a']} (by decide) (by decide) (by decide) ['a']

/-- C4: the word xy occurs in c4grid along the downward-right diagonal
starting at row 1, column 0 (below the top row, on the left column), yet
find_words on that grid with dictionary [xy] returns the empty set: diagonal
scan lines are only anchored at the top row, so this word is missed. -/
theorem diagonal_below_top_row_missed :
    occursDiagDownRight c4grid ['x', 'y'] 1 0 ∧
    find_words ⟨3, 3, [['x', 'y']], c4grid, ∅⟩ = some ∅ := by
  constructor
  · unfold occursDiagDownRight
    decide
  · decide

/-- C6: for all positive dimensions and every random source, the generated
grid has exactly ysize rows, every row has exactly xsize cells, and every
cell is one of the 26 lowercase letters. -/
theorem generate_grid_spec (xsize ysize : Nat) (_hx : 1 ≤ xsize) (_hy : 1 ≤ ysize)
    (rand : Nat → Nat → Fin 26) :
    (generate_grid xsize ysize rand).length = ysize ∧
    ∀ row ∈ generate_grid xsize ysize rand,
      row.length = xsize ∧ ∀ ch ∈ row, ch ∈ ascii_lowercase := by
  constructor
  · simp [generate_grid]
  · intro row hrow
    rw [generate_grid, List.mem_map] at hrow
    obtain ⟨j, hj, hrowj⟩ := hrow
    constructor
    · rw [← hrowj]
      simp
    · intro ch hch
      rw [← hrowj, List.mem_map] at hch
      obtain ⟨i, hi, hchi⟩ := hch
      have hlt : ((rand j i).val : Nat) < ascii_lowercase.length := (rand j i).isLt
      rw [← hchi, List.getD_eq_getElem _ _ hlt]
      exact List.getElem_mem hlt

/-- Witness for C6 on a 1 by 1 grid with a constant random source. -/
theorem generate_grid_spec_witness :
    (generate_grid 1 1 (fun _ _ => (0 : Fin 26))).length = 1 ∧
    ∀ row ∈ generate_grid 1 1 (fun _ _ => (0 : Fin 26)),
      row.length = 1 ∧ ∀ ch ∈ row, ch ∈ ascii_lowercase :=
  generate_grid_spec 1 1 (by decide) (by decide) (fun _ _ => (0 : Fin 26))

/-- Membership in a length-ordered insertion. -/
theorem mem_insertByLen {x w : List Char} {l : List (List Char)} :
    x ∈ insertByLen w l ↔ x = w ∨ x ∈ l := by
  induction l with
  | nil => simp [insertByLen]
  | cons y ys ih =>
    unfold insertByLen
    by_cases hle : w.length ≤ y.length
    · simp only [if_pos hle, List.mem_cons]
    · simp only [if_neg hle, List.mem_cons, ih]
      tauto

/-- Length-ordered insertion preserves sortedness by non-decreasing length. -/
theorem sorted_insertByLen {w : List Char} {l : List (List Char)}
    (hl : l.Sorted (fun a b => a.length ≤ b.length)) :
    (insertByLen w l).Sorted (fun a b => a.length ≤ b.length) := by
  induction l with
  | nil => simp [insertByLen]
  | cons y ys ih =>
    rw [List.sorted_cons] at hl
    obtain ⟨hy, hys⟩ := hl
    unfold insertByLen
    by_cases hle : w.length ≤ y.length
    · rw [if_pos hle, List.sorted_cons]
      refine ⟨?_, ?_⟩
      · intro b hb
        rcases List.mem_cons.mp hb with rfl | hb2
        · exact hle
        · exact le_trans hle (hy b hb2)
      · rw [List.sorted_cons]
        exact ⟨hy, hys⟩
    · rw [if_neg hle, List.sorted_cons]
      refine ⟨?_, ih hys⟩
      intro b hb
      rcases mem_insertByLen.mp hb with rfl | hb2
      · omega
      · exact hy b hb2

/-- Length-ordered insertion is a cons up to permutation. -/
theorem insertByLen_perm (w : List Char) (l : List (List Char)) :
    (insertByLen w l).Perm (w :: l) := by
  induction l with
  | nil => exact List.Perm.refl [w]
  | cons y ys ih =>
    unfold insertByLen
    by_cases hle : w.length ≤ y.length
    · rw [if_pos hle]
    · rw [if_neg hle]
      exact List.Perm.trans (ih.cons y) (List.Perm.swap w y ys)

/-- The stable sort permutes its input. -/
theorem sortByLen_perm (l : List (List Char)) : (sortByLen l).Perm l := by
  induction l with
  | nil => exact List.Perm.refl []
  | cons x xs ih =>
    exact List.Perm.trans (insertByLen_perm x (sortByLen xs)) (ih.cons x)

/-- The stable sort orders by non-decreasing length. -/
theorem sortByLen_sorted (l : List (List Char)) :
    (sortByLen l).Sorted (fun a b => a.length ≤ b.length) := by
  induction l with
  | nil => simp [sortByLen]
  | cons x xs ih => exact sorted_insertByLen ih

/-- Stability of the insertion: among the words of any one length the
insertion point is before all previously present words of that length only
when the inserted word has that length, so per-length order is preserved. -/
theorem filter_insertByLen (w : List Char) (l : List (List Char)) (n : Nat) :
    (insertByLen w l).filter (fun x => x.length = n) =
      if w.length = n then w :: l.filter (fun x => x.length = n)
      else l.filter (fun x => x.length = n) := by
  induction l with
  | nil =>
    unfold insertByLen
    by_cases hn : w.length = n <;> simp [hn]
  | cons y ys ih =>
    unfold insertByLen
    by_cases hle : w.length ≤ y.length
    · rw [if_pos hle]
      by_cases hn : w.length = n <;> simp [List.filter_cons, hn]
    · rw [if_neg hle]
      by_cases hn : w.length = n
      · have hy : ¬(y.length = n) := by omega
        simp [List.filter_cons, hn, hy, ih]
      · simp [List.filter_cons, hn, ih]

/-- The stable sort preserves the per-length subsequences of its input. -/
theorem filter_sortByLen (l : List (List Char)) (n : Nat) :
    (sortByLen l).filter (fun x => x.length = n) = l.filter (fun x => x.length = n) := by
  induction l with
  | nil => rfl
  | cons x xs ih =>
    show (insertByLen x (sortByLen xs)).filter _ = _
    rw [filter_insertByLen, List.filter_cons]
    by_cases hn : x.length = n <;> simp [hn, ih]

/-- C8: a successful dictionary load returns exactly the file's lines with
only the line terminator stripped, ordered by non-decreasing length, and for
every length the words of that length keep their original file order (the
sort is stable). -/
theorem load_dictionary_sorted_stable (contents : List Char) (d : List (List Char))
    (hok : load_dictionary contents = Except.ok d) :
    d.Sorted (fun a b => a.length ≤ b.length) ∧
    d.Perm ((fileLines contents).map (fun word => word.takeWhile (fun c => c ≠ '\n'))) ∧
    ∀ n, d.filter (fun word => word.length = n) =
      ((fileLines contents).map (fun word => word.takeWhile (fun c => c ≠ '\n'))).filter
        (fun word => word.length = n) := by
  simp only [load_dictionary] at hok
  by_cases hz : ((fileLines contents).map
      (fun word => word.takeWhile (fun c => c ≠ '\n'))).length = 0
  · rw [if_pos hz] at hok
    exact absurd hok (by simp)
  · rw [if_neg hz] at hok
    have hd : d = sortByLen ((fileLines contents).map
        (fun word => word.takeWhile (fun c => c ≠ '\n'))) := (Except.ok.inj hok).symm
    rw [hd]
    exact ⟨sortByLen_sorted _, sortByLen_perm _, fun n => filter_sortByLen _ n⟩

/-- Witness for C8 on the two-word file with lines bb and a. -/
theorem load_dictionary_sorted_stable_witness :
    ([['a'], ['b', 'b']] : List (List Char)).Sorted (fun a b => a.length ≤ b.length) ∧
    ([['a'], ['b', 'b']] : List (List Char)).Perm
      ((fileLines "bb\na\n".toList).map (fun word => word.takeWhile (fun c => c ≠ '\n'))) ∧
    ([['a'], ['b', 'b']] : List (List Char)).filter (fun word => word.length = 1) =
      ((fileLines "bb\na\n".toList).map
        (fun word => word.takeWhile (fun c => c ≠ '\n'))).filter
        (fun word => word.length = 1) :=
  ⟨(load_dictionary_sorted_stable ("bb\na\n".toList) [['a'], ['b', 'b']] (by rfl)).1,
   (load_dictionary_sorted_stable ("bb\na\n".toList) [['a'], ['b', 'b']] (by rfl)).2.1,
   (load_dictionary_sorted_stable ("bb\na\n".toList) [['a'], ['b', 'b']] (by rfl)).2.2 1⟩

/-- C7: constructing the search object fails, with the empty-dictionary
error surfaced directly to the caller, exactly when the dictionary file
yields zero words; the load runs before grid generation, so the failed
construction yields no object and hence no grid, not even a partial one.
With at least one word the construction succeeds, and the resulting object
holds the generated grid and an empty found-word set. -/
theorem init_empty_dictionary (contents : List Char) (xsize ysize : Nat)
    (rand : Nat → Nat → Fin 26) :
    ((fileLines contents).length = 0 →
      WordSearch_init contents xsize ysize rand = Except.error
        "No words in dictionary, need to specify a dictionary with at least 1 word.") ∧
    (0 < (fileLines contents).length →
      ∃ st : WordSearchState, WordSearch_init contents xsize ysize rand = Except.ok st ∧
        st.letter_grid = generate_grid xsize ysize rand ∧ st.found_words = ∅) := by
  constructor
  · intro h0
    have hz : ((fileLines contents).map
        (fun word => word.takeWhile (fun c => c ≠ '\n'))).length = 0 := by
      rw [List.length_map]
      exact h0
    unfold WordSearch_init
    simp only [load_dictionary, if_pos hz]
  · intro hpos
    have hz : ¬((fileLines contents).map
        (fun word => word.takeWhile (fun c => c ≠ '\n'))).length = 0 := by
      rw [List.length_map]
      omega
    unfold WordSearch_init
    simp only [load_dictionary, if_neg hz]
    exact ⟨_, rfl, rfl, rfl⟩

/-- Witness for C7: the empty file fails construction with the error, the
one-word file constructs an object carrying the grid and an empty set. -/
theorem init_empty_dictionary_witness :
    WordSearch_init [] 1 1 (fun _ _ => (0 : Fin 26)) = Except.error
      "No words in dictionary, need to specify a dictionary with at least 1 word." ∧
    ∃ st : WordSearchState,
      WordSearch_init ['a'] 1 1 (fun _ _ => (0 : Fin 26)) = Except.ok st ∧
      st.letter_grid = generate_grid 1 1 (fun _ _ => (0 : Fin 26)) ∧
      st.found_words = ∅ :=
  ⟨(init_empty_dictionary [] 1 1 (fun _ _ => (0 : Fin 26))).1 (by decide),
   (init_empty_dictionary ['a'] 1 1 (fun _ _ => (0 : Fin 26))).2 (by decide)⟩

/-- The matching loop never removes a word already in the found set. -/
theorem subset_find_words_loop (dict comp : List (List Char))
    (found : Finset (List Char)) : found ⊆ find_words_loop dict comp found := by
  intro a ha
  exact (mem_find_words_loop dict comp found a).mpr (Or.inl ha)

/-- C9: the found-word set of a search object only grows.  Whenever a first
invocation of find_words returns a set, and a second invocation on the same
object (with the grid and dimensions possibly replaced in between) returns a
set, the second set contains the first, which in turn contains everything
held before; no element is ever removed between invocations. -/
theorem found_words_accumulates (st : WordSearchState)
    (g2 : List (List Char)) (x2 y2 : Nat) (S1 S2 : Finset (List Char))
    (h1 : find_words st = some S1)
    (h2 : find_words ⟨x2, y2, st.words_dictionary, g2, S1⟩ = some S2) :
    st.found_words ⊆ S1 ∧ S1 ⊆ S2 := by
  constructor
  · unfold find_words at h1
    cases hc : comp_strings st with
    | none => rw [hc] at h1; exact absurd h1 (by simp)
    | some comp =>
      rw [hc] at h1
      simp only [Option.map_some'] at h1
      rw [← Option.some.inj h1]
      exact subset_find_words_loop _ _ _
  · unfold find_words at h2
    cases hc : comp_strings ⟨x2, y2, st.words_dictionary, g2, S1⟩ with
    | none => rw [hc] at h2; exact absurd h2 (by simp)
    | some comp =>
      rw [hc] at h2
      simp only [Option.map_some'] at h2
      rw [← Option.some.inj h2]
      exact subset_find_words_loop _ _ _

/-- Witness for C9: a first search on a one-cell grid finds the word, a
second search after replacing the grid with a non-matching one keeps it. -/
theorem found_words_accumulates_witness :
    (∅ : Finset (List Char)) ⊆ {['a']} ∧
    ({['a']} : Finset (List Char)) ⊆ {['a']} :=
  found_words_accumulates ⟨1, 1, [['a']], [['a']], ∅⟩ [['b']] 1 1 {['a']} {['a']}
    (by decide) (by decide)

/-- C10: a blank line in the dictionary file puts the empty word into the
loaded dictionary (the blank line counts as a word, so it does not trigger
the empty-dictionary error), and whenever the dictionary holds the empty
word, every find_words invocation that returns a set on a grid with at least
one row reports the empty word, the empty word being a contiguous substring
of every scan line. -/
theorem empty_word_found :
    (∀ contents d, load_dictionary contents = Except.ok d →
      (∃ line ∈ fileLines contents, line.takeWhile (fun c => c ≠ '\n') = []) →
      [] ∈ d) ∧
    (∀ st S, find_words st = some S → [] ∈ st.words_dictionary →
      st.letter_grid ≠ [] → [] ∈ S) := by
  constructor
  · intro contents d hok hline
    obtain ⟨line, hmem, hstrip⟩ := hline
    have hmemw : ([] : List Char) ∈ (fileLines contents).map
        (fun word => word.takeWhile (fun c => c ≠ '\n')) :=
      List.mem_map.mpr ⟨line, hmem, hstrip⟩
    have hperm := (load_dictionary_sorted_stable contents d hok).2.1
    exact hperm.mem_iff.mpr hmemw
  · intro st S hS hdict hgrid
    unfold find_words at hS
    cases hc : comp_strings st with
    | none => rw [hc] at hS; exact absurd hS (by simp)
    | some comp =>
      rw [hc] at hS
      simp only [Option.map_some'] at hS
      obtain ⟨row, rest, hg⟩ : ∃ row rest, st.letter_grid = row :: rest := by
        cases hgl : st.letter_grid with
        | nil => exact absurd hgl hgrid
        | cons row rest => exact ⟨row, rest, rfl⟩
      have hrow_mem : row ∈ comp := by
        unfold comp_strings at hc
        split at hc
        · rename_i v dlines hv hd
          have hcomp := Option.some.inj hc
          rw [← hcomp]
          apply List.mem_append_left
          apply List.mem_append_left
          rw [hg]
          unfold get_horizontal_str
          simp
        · exact absurd hc (by simp)
      rw [← Option.some.inj hS]
      refine (mem_find_words_loop _ _ _ _).mpr (Or.inr ⟨hdict, row, hrow_mem, ?_⟩)
      exact (substrB_eq_true_iff [] row).mpr ⟨[], row, rfl⟩

/-- Witness for C10: the file holding a blank line then the word a loads to
a dictionary holding the empty word, and searching the one-cell grid with a
dictionary holding the empty word reports the empty word. -/
theorem empty_word_found_witness :
    (([] : List Char) ∈ [([] : List Char), ['a']]) ∧
    (([] : List Char) ∈ (insert ['a'] (insert ([] : List Char) ∅) : Finset (List Char))) :=
  ⟨empty_word_found.1 ("\na\n".toList) [[], ['a']] (by rfl)
      ⟨['\n'], by decide, by decide⟩,
   empty_word_found.2 ⟨1, 1, [[], ['a']], [['a']], ∅⟩
      (insert ['a'] (insert ([] : List Char) ∅)) (by decide) (by decide) (by decide)⟩

/-- Witness for C3: the positive half on the one-cell grid, the negative
half on the 2-row, 3-column grid. -/
theorem get_diagonal_str_spec_witness :
    (get_diagonal_str [['a']] 1 =
      some (((List.range 1).map (fun c =>
        [diagRightD [['a']] 1 c, (diagRightD [['a']] 1 c).reverse,
         diagLeftD [['a']] 1 c, (diagLeftD [['a']] 1 c).reverse])).flatten) ∧
    ((diagRightD [['a']] 1 0).length = 1 - 0 ∧ (diagLeftD [['a']] 1 0).length = 1 - 0) ∧
    ([['a'], ['a'], ['a'], ['a']] : List (List Char)).length = 4 * 1) ∧
    get_diagonal_str [['a', 'b', 'c'], ['d', 'e', 'f']] 3 = none :=
  ⟨⟨((get_diagonal_str_spec [['a']] 1 1 ⟨rfl, by decide⟩).1 (by decide)).1,
    ((get_diagonal_str_spec [['a']] 1 1 ⟨rfl, by decide⟩).1 (by decide)).2.1 0 (by decide),
    ((get_diagonal_str_spec [['a']] 1 1 ⟨rfl, by decide⟩).1 (by decide)).2.2
      [['a'], ['a'], ['a'], ['a']] (by rfl)⟩,
   (get_diagonal_str_spec [['a', 'b', 'c'], ['d', 'e', 'f']] 3 2
      ⟨rfl, by decide⟩).2 (by decide)⟩

/-- Witness for C5 on the one-cell grid. -/
theorem horizontal_vertical_spec_witness :
    get_horizontal_str [['a']] =
      ((List.range 1).map
        (fun r => [rowD [['a']] 1 r, (rowD [['a']] 1 r).reverse])).flatten ∧
    (get_horizontal_str [['a']]).length = 2 * 1 ∧
    get_vertical_str [['a']] 1 1 =
      some (((List.range 1).map
        (fun c => [colD [['a']] 1 c, (colD [['a']] 1 c).reverse])).flatten) ∧
    ([['a'], ['a']] : List (List Char)).length = 2 * 1 :=
  ⟨(horizontal_vertical_spec [['a']] 1 1 ⟨rfl, by decide⟩).1,
   (horizontal_vertical_spec [['a']] 1 1 ⟨rfl, by decide⟩).2.1,
   (horizontal_vertical_spec [['a']] 1 1 ⟨rfl, by decide⟩).2.2.1,
   (horizontal_vertical_spec [['a']] 1 1 ⟨rfl, by decide⟩).2.2.2 [['a'], ['a']] (by rfl)⟩
